import Mathlib

/-!
Verification of the multi-room word-game server: a shallow embedding of the
room state, the turn/vote handlers from `socket/handlers.js`, the turn and
vote resolution logic from `game/gameLogic.js`, the timer interpolation from
`config/timers.js`, the bot roster management from `config/bot.js` and the
word normalisation from `utils/wordUtils.js`.

Modelling conventions: a JavaScript `Map` becomes an insertion-ordered
association list (`Map` keys are unique, which appears as `keysNodup`
hypotheses), a `Set` becomes a duplicate-free list, timestamps and durations
are naturals (milliseconds), scores are integers, and the floating-point
arithmetic of the speed score and the turn-duration interpolation is carried
out exactly over `ℚ`.
-/

namespace Chips

/-- One player object as stored in `room.players`. -/
structure Player where
  name : String
  score : Int
  alive : Bool
  online : Bool
deriving Repr, DecidableEq

/-- The fields of `createRoom()` (roomManager.js) that the verified logic
reads or writes.  Timer handles and static configuration are omitted. -/
structure Room where
  players : List (String × Player) := []
  hostId : Option String := none
  level : Nat := 0
  accepting : Bool := false
  votingActive : Bool := false
  gameActive : Bool := false
  submissions : List (String × String) := []
  submissionTimes : List (String × Nat) := []
  usedWords : List String := []
  wordSet : List String := []
  punishedLetters : List Char := []
  votes : List (String × List String) := []
  botId : Option String := none
  turnStartedAt : Option Nat := none
  currentTurnDuration : Option Nat := none
deriving Repr, DecidableEq

/-- Key membership test, mirroring `Map.prototype.has`. -/
def hasKey {α : Type} (l : List (String × α)) (k : String) : Bool :=
  l.any (fun e => e.1 == k)

/-- Map update, mirroring `Map.prototype.set`: overwrite in place when the key
is present, append otherwise. -/
def setEntry {α : Type} (l : List (String × α)) (k : String) (v : α) :
    List (String × α) :=
  if hasKey l k then l.map (fun e => if e.1 == k then (k, v) else e) else l ++ [(k, v)]

/-- Map deletion, mirroring `Map.prototype.delete`. -/
def delEntry {α : Type} (l : List (String × α)) (k : String) : List (String × α) :=
  l.filter (fun e => e.1 ≠ k)

/-- The key discipline a JavaScript `Map` maintains by construction: keys are
pairwise distinct. -/
def keysNodup {α : Type} (l : List (String × α)) : Prop :=
  (l.map Prod.fst).Nodup

/-- `roomManager.aliveIds` restricted to a roster list: ids of the players
whose `alive` flag is set, in roster order. -/
def aliveIdsL (players : List (String × Player)) : List String :=
  (players.filter (fun e => e.2.alive)).map Prod.fst

/-- `roomManager.aliveIds`. -/
def aliveIds (room : Room) : List String :=
  aliveIdsL room.players

/-- `roomManager.onlineCount`: number of players whose `online` flag is set. -/
def onlineCount (room : Room) : Nat :=
  (room.players.filter (fun e => e.2.online)).length

/-- The test `players.get(id)?.alive` used by the vote logic. -/
def aliveAt (players : List (String × Player)) (sid : String) : Bool :=
  match players.lookup sid with
  | some p => p.alive
  | none => false

/-! ### Turn durations (`config/timers.js`) -/

/-- One entry of `TIMER_CONFIG.levelRanges`: an inclusive level interval
`[start, end]` with the durations (in seconds) at both endpoints. -/
structure LevelRange where
  start : ℚ
  «end» : ℚ
  startSec : ℚ
  endSec : ℚ
deriving Repr, DecidableEq

/-- The default `TIMER_CONFIG.levelRanges`. -/
def levelRanges : List LevelRange :=
  [⟨1, 10, 10, 8⟩, ⟨10, 15, 8, 6⟩, ⟨15, 20, 6, 4⟩]

/-- The `for` loop of `getTurnDuration`: scan the ranges in order and return
the answer of the first applicable one, or `none` when the loop falls
through. -/
def scanRanges : List LevelRange → ℚ → Option ℚ
  | [], _ => none
  | r :: rs, level =>
    if level < r.start then some r.startSec
    else if r.start ≤ level ∧ level ≤ r.«end» then
      let steps := r.«end» - r.start
      if steps = 0 then some r.endSec
      else some (r.startSec - (level - r.start) * ((r.startSec - r.endSec) / steps))
    else scanRanges rs level

/-- `getTurnDuration` (timers.js): duration in seconds of a turn at the given
level, by piecewise-linear interpolation over the configured ranges. -/
def getTurnDuration (ranges : List LevelRange) (level : ℚ) : ℚ :=
  if ranges.isEmpty then 4
  else
    match scanRanges ranges level with
    | some d => d
    | none => ((ranges.getLast?).map LevelRange.endSec).getD 4

/-! ### Word normalisation (`utils/wordUtils.js`) -/

/-- Characters removed by the diacritic-stripping regular expression, modelled
as the combining diacritical marks block. -/
def isDiacritic (c : Char) : Bool :=
  0x300 ≤ c.toNat && c.toNat ≤ 0x36F

/-- Drop every diacritic character from a string. -/
def stripDiacritics (s : String) : String :=
  String.mk (s.data.filter (fun c => ¬ isDiacritic c))

/-- JavaScript `String.prototype.trim`, modelled on the character list: drop
whitespace from both ends. -/
def jsTrim (s : String) : String :=
  String.mk
    (((s.data.dropWhile Char.isWhitespace).reverse.dropWhile
        Char.isWhitespace).reverse)

/-- JavaScript `String.prototype.toLowerCase`, modelled characterwise. -/
def jsToLower (s : String) : String :=
  String.mk (s.data.map Char.toLower)

/-- `normalizeWord` (wordUtils.js): trim, lowercase, strip diacritics.  A
falsy non-string payload is `none`, and the falsy empty string
short-circuits to `""` as well.  Unicode NFD decomposition is modelled as
the identity on the already-decomposed text. -/
def normalizeWord : Option String → String
  | none => ""
  | some s => if s = "" then "" else stripDiacritics (jsToLower (jsTrim s))

/-! ### Speed scoring (`endTurn` in gameLogic.js) -/

/-- The speed-based score delta of `endTurn`: `10 - Math.floor((elapsed / dur)
* 10)` followed by the two sequential clamping conditionals, computed with
exact rational arithmetic in place of JavaScript floats. -/
def speedScore (elapsed : Int) (dur : Nat) : Int :=
  let raw : Int := 10 - ⌊((elapsed : ℚ) / (dur : ℚ)) * 10⌋
  let s1 : Int := if raw < 1 then 1 else raw
  if s1 > 10 then 10 else s1

/-! ### Bot roster management (`config/bot.js`) -/

/-- `addBot` (bot.js): no-op when a bot is already present, otherwise add a
fresh roster entry keyed `bot-<now>` and record its id.  `now` stands for the
`Date.now()` call that mints the id. -/
def addBot (room : Room) (now : Nat) : Room :=
  match room.botId with
  | some _ => room
  | none =>
    let botId := "bot-" ++ toString now
    { room with
      players := setEntry room.players botId ⟨"Bot", 0, false, true⟩
      botId := some botId }

/-- `removeBot` (bot.js): delete the bot roster entry and clear `botId`. -/
def removeBot (room : Room) : Room :=
  match room.botId with
  | none => room
  | some b => { room with players := delEntry room.players b, botId := none }

/-- Claim C10's roster shape: either no bot, or `botId` names exactly one
roster entry. -/
def botInvariant (room : Room) : Prop :=
  room.botId = none ∨
    ∃ b, room.botId = some b ∧ (room.players.filter (fun e => e.1 == b)).length = 1

/-! ### Game start handlers (`socket/handlers.js`) -/

/-- Result channel of the start/restart handlers: silent precondition
failure, a `game:error` emission, or a started game (the handler then calls
`startNewRound`, which is outside the verified fragment). -/
inductive StartOutcome
  | noop
  | error (message : String)
  | started
deriving Repr, DecidableEq

/-- The one user-facing message shared by every start/restart failure. -/
def lobbyErrorMessage : String :=
  "Problème de création du Lobby, Demande à Kiddy"

/-- The human-player count of `handleGameStart`: online players whose id
differs from the bot id. -/
def humanOnlineCount (room : Room) : Nat :=
  (room.players.filter (fun e => (some e.1 != room.botId) && e.2.online)).length

/-- `handleGameStart` (handlers.js), up to the `startNewRound` call: host and
activity checks, bot injection when fewer than two humans are online, and the
final player-count check. -/
def handleGameStart (room : Room) (senderId : String) (now : Nat) :
    Room × StartOutcome :=
  if room.hostId ≠ some senderId then (room, StartOutcome.noop)
  else if room.gameActive then (room, StartOutcome.error lobbyErrorMessage)
  else
    let humanCount := humanOnlineCount room
    let room1 := if humanCount < 2 then addBot room now else room
    if onlineCount room1 < 2 then (room1, StartOutcome.error lobbyErrorMessage)
    else
      ({ room1 with gameActive := true, level := 0, punishedLetters := [] },
        StartOutcome.started)

/-- `handleGameRestart` (handlers.js): the restart handler repeats the start
handler's checks and effects verbatim. -/
def handleGameRestart (room : Room) (senderId : String) (now : Nat) :
    Room × StartOutcome :=
  if room.hostId ≠ some senderId then (room, StartOutcome.noop)
  else if room.gameActive then (room, StartOutcome.error lobbyErrorMessage)
  else
    let humanCount := humanOnlineCount room
    let room1 := if humanCount < 2 then addBot room now else room
    if onlineCount room1 < 2 then (room1, StartOutcome.error lobbyErrorMessage)
    else
      ({ room1 with gameActive := true, level := 0, punishedLetters := [] },
        StartOutcome.started)

/-! ### Word submission (`handleTurnSubmit` in handlers.js) -/

/-- The messages the submit handler can emit towards players. -/
inductive Msg
  | turnError
  | turnAck (word : String)
  | turnProgress (n : Nat)
deriving Repr, DecidableEq

/-- `handleTurnSubmit` (handlers.js): the room update plus the emitted
messages.  `now` stands for `Date.now()` at handling time. -/
def handleTurnSubmit (room : Room) (pid : String) (word : Option String)
    (now : Nat) : Room × List Msg :=
  if ¬ room.accepting then (room, [])
  else
    match room.players.lookup pid with
    | none => (room, [])
    | some p =>
      if ¬ p.alive then (room, [])
      else
        let normalized := normalizeWord word
        if normalized = "" then (room, [])
        else
          let alreadyUsed := normalized ∈ room.usedWords
          let notInBank := 0 < room.wordSet.length ∧ normalized ∉ room.wordSet
          let hasPunished :=
            room.punishedLetters.any (fun letter => normalized.contains letter)
          if alreadyUsed ∨ notInBank ∨ hasPunished then (room, [Msg.turnError])
          else if ¬ hasKey room.submissions pid then
            let submissions := setEntry room.submissions pid normalized
            ({ room with
                submissions := submissions
                submissionTimes := setEntry room.submissionTimes pid now },
              [Msg.turnAck normalized, Msg.turnProgress submissions.length])
          else (room, [])

/-! ### Voting (`handleTurnVote` in handlers.js) -/

/-- Mark every listed player as not alive, mirroring the in-place
`p.alive = false` updates. -/
def markDead (elim : List String) (players : List (String × Player)) :
    List (String × Player) :=
  players.map (fun e => if e.1 ∈ elim then (e.1, { e.2 with alive := false }) else e)

/-- The pattern `const word = room.submissions.get(id); if (word)
room.usedWords.delete(word);`: an absent entry and the empty string are both
falsy, so nothing is deleted in those cases. -/
def deleteWordIfTruthy (used : List String) (word : Option String) : List String :=
  match word with
  | none => used
  | some w => if w = "" then used else used.filter (fun u => u ≠ w)

/-- The ballots currently recorded against a target. -/
def votersFor (room : Room) (targetId : String) : List String :=
  (room.votes.lookup targetId).getD []

/-- `handleTurnVote` (handlers.js): validity checks, ballot recording and the
early-exit majority elimination. -/
def handleTurnVote (room : Room) (voterId targetId : String) : Room :=
  if ¬ room.votingActive then room
  else
    match room.players.lookup voterId, room.players.lookup targetId with
    | some voter, some targetPlayer =>
      if ¬ voter.alive then room
      else if ¬ targetPlayer.alive then room
      else if targetId = voterId then room
      else if ¬ hasKey room.submissions targetId then room
      else
        let votes0 :=
          if ¬ hasKey room.votes targetId then setEntry room.votes targetId []
          else room.votes
        let votersSet := (votes0.lookup targetId).getD []
        if voterId ∈ votersSet then { room with votes := votes0 }
        else
          let votersSet1 := votersSet ++ [voterId]
          let votes1 := setEntry votes0 targetId votersSet1
          let alive := aliveIds room
          let effCount := (alive.filter (fun sid => sid ≠ targetId)).length
          let effThreshold := effCount / 2 + 1
          if effThreshold ≤ votersSet1.length then
            { room with
              votes := votes1
              players := markDead [targetId] room.players
              usedWords :=
                deleteWordIfTruthy room.usedWords (room.submissions.lookup targetId) }
          else { room with votes := votes1 }
    | _, _ => room

/-! ### Turn resolution (`endTurn` in gameLogic.js) -/

/-- Ids of alive players without a submission (reason `noSubmission`). -/
def noSubmissionIds (room : Room) : List String :=
  (room.players.filter (fun e => e.2.alive && ¬ hasKey room.submissions e.1)).map
    Prod.fst

/-- Ids of players whose submitted word was submitted by at least two players
(reason `duplicate`).  The `freq` map of the source groups submissions by
word; `freq.get(w).length` is the number of submission entries carrying `w`,
so a submitter is listed here exactly when that count reaches 2. -/
def duplicateIds (room : Room) : List String :=
  (room.submissions.filter
      (fun s => 2 ≤ (room.submissions.filter (fun t => t.2 == s.2)).length)).map
    Prod.fst

/-- A JavaScript number stored in an optional field is truthy when it is
present and non-zero. -/
def truthyNat : Option Nat → Bool
  | none => false
  | some n => n ≠ 0

/-- Add a score delta to one player (`player.score += score`). -/
def addScore (players : List (String × Player)) (sid : String) (delta : Int) :
    List (String × Player) :=
  players.map
    (fun e => if e.1 = sid then (e.1, { e.2 with score := e.2.score + delta }) else e)

/-- One iteration of the scoring loop of `finalizeTurn`: skip eliminated
submitters and submitters without a (truthy) timestamp, otherwise award the
speed score for the elapsed time. -/
def scoreStep (room : Room) (eliminated : List String)
    (players : List (String × Player)) (s : String × String) :
    List (String × Player) :=
  if s.1 ∈ eliminated then players
  else
    match room.submissionTimes.lookup s.1 with
    | none => players
    | some ts =>
      if ts = 0 then players
      else
        addScore players s.1
          (speedScore ((ts : Int) - (room.turnStartedAt.getD 0 : Int))
            (room.currentTurnDuration.getD 0))

/-- The score delta that `scoreStep` applies to the entry keyed by the
submitter id: zero whenever the step skips the player. -/
def scoreDelta (room : Room) (eliminated : List String) (sid : String) : Int :=
  if sid ∈ eliminated then 0
  else
    match room.submissionTimes.lookup sid with
    | none => 0
    | some ts =>
      if ts = 0 then 0
      else
        speedScore ((ts : Int) - (room.turnStartedAt.getD 0 : Int))
          (room.currentTurnDuration.getD 0)

/-- Set-style insertion into `usedWords` (`Set.prototype.add`). -/
def addWord (used : List String) (w : String) : List String :=
  if w ∈ used then used else used ++ [w]

/-- Result of `endTurn`: the updated room plus the membership of the
`eliminated` set (kept as a list; only membership is ever consumed). -/
structure TurnEndResult where
  room : Room
  eliminated : List String
deriving Repr, DecidableEq

/-- `endTurn` together with its inner `finalizeTurn` (gameLogic.js): stop
accepting, eliminate duplicate submitters and alive non-submitters, award
speed scores to the surviving submitters, extend `usedWords` with their
words, then open the voting phase with one empty ballot set per submitter. -/
def endTurn (room : Room) : TurnEndResult :=
  let eliminated := noSubmissionIds room ++ duplicateIds room
  let players1 := markDead eliminated room.players
  let players2 :=
    if truthyNat room.turnStartedAt && truthyNat room.currentTurnDuration then
      room.submissions.foldl (scoreStep room eliminated) players1
    else players1
  let usedWords1 :=
    room.submissions.foldl
      (fun acc s => if s.1 ∈ eliminated then acc else addWord acc s.2)
      room.usedWords
  { room :=
      { room with
        accepting := false
        players := players2
        usedWords := usedWords1
        votes := room.submissions.map (fun s => (s.1, ([] : List String)))
        votingActive := true }
    eliminated := eliminated }

/-! ### Vote resolution (`finalizeVote` in gameLogic.js) -/

/-- The winner fold of the game-over branch: start from `bestId = null` and
`maxScore = -Infinity`, and let a strictly greater score take over, so the
first-enumerated maximal-score player wins. -/
def bestScoreId (players : List (String × Player)) : Option String :=
  (players.foldl
      (fun best e =>
        match best with
        | none => some e
        | some b => if b.2.score < e.2.score then some e else some b)
      none).map
    Prod.fst

/-- The elimination scan of `finalizeVote`: among the recorded ballots, keep
every still-alive target whose ballot count reaches the absolute majority of
the currently-alive players other than the target. -/
def voteEliminated (room : Room) : List String :=
  let aliveBefore := aliveIds room
  (room.votes.filter
      (fun tv =>
        aliveAt room.players tv.1 &&
          ((aliveBefore.filter (fun sid => sid ≠ tv.1)).length / 2 + 1 ≤ tv.2.length))).map
    Prod.fst

/-- Result of `finalizeVote`: the updated room, the targets eliminated by
vote, whether the game-over branch fired, and in that case the id handed to
`endRound` as winner. -/
structure VoteResult where
  room : Room
  eliminatedByVote : List String
  gameOver : Bool
  winner : Option String
deriving Repr, DecidableEq

/-- `finalizeVote` (gameLogic.js): a no-op unless voting is active; otherwise
apply the majority eliminations, delete the corresponding words from
`usedWords`, clear the ballots, and either fire the game-over branch (level
cap reached or at most one player left alive) with the highest-score player
as winner, or schedule the next turn. -/
def finalizeVote (room : Room) : VoteResult :=
  if ¬ room.votingActive then ⟨room, [], false, none⟩
  else
    let eliminatedByVote := voteEliminated room
    let players1 := markDead eliminatedByVote room.players
    let usedWords1 :=
      eliminatedByVote.foldl
        (fun acc sid => deleteWordIfTruthy acc (room.submissions.lookup sid))
        room.usedWords
    let room1 :=
      { room with
        votingActive := false
        players := players1
        usedWords := usedWords1
        votes := [] }
    let remaining := aliveIdsL players1
    if 20 ≤ room.level ∨ remaining.length ≤ 1 then
      ⟨room1, eliminatedByVote, true, bestScoreId players1⟩
    else ⟨room1, eliminatedByVote, false, none⟩

/-! ### Concrete scenario rooms -/

/-- A room at vote-resolution time with exactly one alive player (`A`) and a
higher-scoring already-eliminated player (`B`). -/
def roomC1 : Room :=
  { players := [("A", ⟨"Alice", 0, true, true⟩), ("B", ⟨"Bob", 5, false, true⟩)]
    level := 3
    votingActive := true }

/-- A five-player room at turn-timeout time: everyone alive and online, five
distinct submissions, a started turn of ten seconds. -/
def roomC3 : Room :=
  { players :=
      [("A", ⟨"A", 0, true, true⟩), ("B", ⟨"B", 0, true, true⟩),
        ("C", ⟨"C", 0, true, true⟩), ("D", ⟨"D", 0, true, true⟩),
        ("E", ⟨"E", 0, true, true⟩)]
    level := 3
    accepting := true
    submissions := [("A", "wa"), ("B", "wb"), ("C", "wc"), ("D", "wd"), ("E", "we")]
    submissionTimes := [("A", 1100), ("B", 1100), ("C", 1100), ("D", 1100), ("E", 1100)]
    turnStartedAt := some 1000
    currentTurnDuration := some 10000 }

/-- `roomC3` after turn resolution and five cast ballots: two against `C`,
then three against `D` — the third ballot eliminates `D` through the
early-exit majority path before the vote timeout fires. -/
def roomC3v : Room :=
  handleTurnVote
    (handleTurnVote
      (handleTurnVote
        (handleTurnVote (handleTurnVote (endTurn roomC3).room "A" "C") "B" "C") "A"
        "D")
      "B" "D")
    "E" "D"

/-- The unified rejection condition of `handleTurnSubmit`: the word is
already used this round, or absent from a non-empty word bank, or contains a
punished letter. -/
def rejectedWord (room : Room) (n : String) : Prop :=
  n ∈ room.usedWords ∨ (0 < room.wordSet.length ∧ n ∉ room.wordSet) ∨
    room.punishedLetters.any (fun letter => n.contains letter) = true

/-- A small accepting room with one alive player, a used word and a two-word
bank, for the submission-rule witnesses. -/
def roomC7 : Room :=
  { players := [("A", ⟨"Alice", 0, true, true⟩)]
    accepting := true
    usedWords := ["zebre"]
    wordSet := ["zebre", "lion"] }

/-- A three-player voting-phase room: everyone alive, every player holds a
live submission, and one ballot against `C` is already recorded. -/
def roomC4 : Room :=
  { players :=
      [("A", ⟨"A", 0, true, true⟩), ("B", ⟨"B", 0, true, true⟩),
        ("C", ⟨"C", 0, true, true⟩)]
    votingActive := true
    submissions := [("A", "chat"), ("B", "chien"), ("C", "mot")]
    usedWords := ["chat", "chien", "mot"]
    votes := [("A", []), ("B", []), ("C", ["A"])] }

/-- The duplicate-elimination scenario room: three alive players, two of whom
submitted the same word `chat` while `C` submitted `chien`, with a started
ten-second turn. -/
def roomC5 : Room :=
  { players :=
      [("A", ⟨"A", 0, true, true⟩), ("B", ⟨"B", 0, true, true⟩),
        ("C", ⟨"C", 0, true, true⟩)]
    accepting := true
    submissions := [("A", "chat"), ("B", "chat"), ("C", "chien")]
    submissionTimes := [("A", 2000), ("B", 2500), ("C", 3000)]
    turnStartedAt := some 1000
    currentTurnDuration := some 10000 }

/-- A lobby room whose host is the only online player. -/
def roomC8 : Room :=
  { players := [("A", ⟨"Alice", 0, false, true⟩)]
    hostId := some "A" }

/-- A room already holding a bot next to one human player. -/
def roomC10 : Room :=
  { players := [("A", ⟨"Alice", 0, false, true⟩), ("bot-1", ⟨"Bot", 0, false, true⟩)]
    botId := some "bot-1" }

/-! ### Association-list lemmas -/

theorem keysNodup_cons {α : Type} {e : String × α} {t : List (String × α)} :
    keysNodup (e :: t) ↔ e.1 ∉ t.map Prod.fst ∧ keysNodup t := by
  unfold keysNodup
  rw [List.map_cons, List.nodup_cons]

theorem lookup_eq_none_iff {α : Type} {l : List (String × α)} {k : String} :
    l.lookup k = none ↔ hasKey l k = false := by
  induction l with
  | nil => simp [hasKey]
  | cons e t ih =>
    obtain ⟨a, b⟩ := e
    by_cases h : k = a
    · subst h
      simp [List.lookup_cons, hasKey]
    · have hbe : (k == a) = false := beq_eq_false_iff_ne.2 h
      have hbe' : (a == k) = false := beq_eq_false_iff_ne.2 (Ne.symm h)
      simp only [List.lookup_cons, hbe, hasKey, List.any_cons, hbe', Bool.false_or]
      exact ih

theorem mem_of_lookup_eq_some {α : Type} {l : List (String × α)} {k : String} {v : α}
    (h : l.lookup k = some v) : (k, v) ∈ l := by
  induction l with
  | nil => simp at h
  | cons e t ih =>
    obtain ⟨a, b⟩ := e
    by_cases hk : k = a
    · subst hk
      simp only [List.lookup_cons, beq_self_eq_true, Option.some.injEq] at h
      subst h
      exact List.mem_cons_self _ _
    · have hbe : (k == a) = false := beq_eq_false_iff_ne.2 hk
      simp only [List.lookup_cons, hbe] at h
      exact List.mem_cons_of_mem _ (ih h)

theorem lookup_eq_some_of_mem {α : Type} {l : List (String × α)} {k : String} {v : α}
    (hnd : keysNodup l) (h : (k, v) ∈ l) : l.lookup k = some v := by
  induction l with
  | nil => simp at h
  | cons e t ih =>
    obtain ⟨a, b⟩ := e
    obtain ⟨ha, hnd'⟩ := keysNodup_cons.1 hnd
    rcases List.mem_cons.1 h with he | ht
    · rw [Prod.mk.injEq] at he
      obtain ⟨rfl, rfl⟩ := he
      simp [List.lookup_cons]
    · have hk : k ≠ a := by
        rintro rfl
        exact ha (List.mem_map.2 ⟨(k, v), ht, rfl⟩)
      have hbe : (k == a) = false := beq_eq_false_iff_ne.2 hk
      simp only [List.lookup_cons, hbe]
      exact ih hnd' ht

theorem mem_map_fst_filter_iff {α : Type} {l : List (String × α)}
    {q : String × α → Bool} {k : String} (hnd : keysNodup l) :
    k ∈ (l.filter q).map Prod.fst ↔ ∃ v, l.lookup k = some v ∧ q (k, v) = true := by
  constructor
  · rintro hmem
    rcases List.mem_map.1 hmem with ⟨e, hef, rfl⟩
    rcases List.mem_filter.1 hef with ⟨hel, hq⟩
    exact ⟨e.2, lookup_eq_some_of_mem hnd hel, hq⟩
  · rintro ⟨v, hl, hq⟩
    exact List.mem_map.2 ⟨(k, v), List.mem_filter.2 ⟨mem_of_lookup_eq_some hl, hq⟩, rfl⟩

theorem hasKey_iff_mem_keys {α : Type} {l : List (String × α)} {k : String} :
    hasKey l k = true ↔ k ∈ l.map Prod.fst := by
  simp [hasKey, List.any_eq_true, List.mem_map, beq_iff_eq]

theorem lookup_append {α : Type} (l₁ l₂ : List (String × α)) (k : String) :
    (l₁ ++ l₂).lookup k = ((l₁.lookup k).orElse fun _ => l₂.lookup k) := by
  induction l₁ with
  | nil => simp
  | cons e t ih =>
    obtain ⟨a, b⟩ := e
    by_cases hk : k = a
    · subst hk
      simp [List.lookup_cons]
    · have hbe : (k == a) = false := beq_eq_false_iff_ne.2 hk
      simp [List.lookup_cons, hbe, ih]

theorem lookup_map_overwrite {α : Type} {l : List (String × α)} {k : String} {v : α}
    (h : hasKey l k = true) :
    (l.map (fun e => if e.1 == k then (k, v) else e)).lookup k = some v := by
  induction l with
  | nil => simp [hasKey] at h
  | cons e t ih =>
    obtain ⟨a, b⟩ := e
    by_cases hk : a = k
    · subst hk
      simp [List.lookup_cons]
    · have hbe' : (k == a) = false := beq_eq_false_iff_ne.2 (Ne.symm hk)
      have h' : hasKey t k = true := by
        simpa [hasKey, List.any_cons, beq_eq_false_iff_ne.2 hk] using h
      simpa [List.lookup_cons, hk, hbe'] using ih h'

theorem lookup_map_overwrite_ne {α : Type} {l : List (String × α)} {k k' : String}
    {v : α} (h : k' ≠ k) :
    (l.map (fun e => if e.1 == k then (k, v) else e)).lookup k' = l.lookup k' := by
  induction l with
  | nil => simp
  | cons e t ih =>
    obtain ⟨a, b⟩ := e
    by_cases hk : a = k
    · have hbe : (k' == k) = false := beq_eq_false_iff_ne.2 h
      have hbe2 : (k' == a) = false :=
        beq_eq_false_iff_ne.2 (fun he => h (he.trans hk))
      simpa [List.lookup_cons, hk, hbe, hbe2] using ih
    · by_cases hk' : k' = a
      · subst hk'
        simp [List.lookup_cons, hk]
      · have hbe' : (k' == a) = false := beq_eq_false_iff_ne.2 hk'
        simpa [List.lookup_cons, hk, hbe'] using ih

theorem lookup_setEntry_self {α : Type} (l : List (String × α)) (k : String) (v : α) :
    (setEntry l k v).lookup k = some v := by
  unfold setEntry
  by_cases h : hasKey l k
  · rw [if_pos h]
    exact lookup_map_overwrite h
  · rw [if_neg h]
    have hnone : l.lookup k = none := lookup_eq_none_iff.2 (by simpa using h)
    simp [lookup_append, hnone, List.lookup_cons]

theorem lookup_setEntry_ne {α : Type} (l : List (String × α)) (k k' : String) (v : α)
    (h : k' ≠ k) : (setEntry l k v).lookup k' = l.lookup k' := by
  unfold setEntry
  by_cases hk : hasKey l k
  · rw [if_pos hk]
    exact lookup_map_overwrite_ne h
  · rw [if_neg hk]
    have hbe : (k' == k) = false := beq_eq_false_iff_ne.2 h
    rw [lookup_append]
    cases hl : l.lookup k' with
    | none => simp [List.lookup_cons, hbe]
    | some w => simp

theorem keys_map_overwrite {α : Type} (l : List (String × α)) (k : String) (v : α) :
    (l.map (fun e => if e.1 == k then (k, v) else e)).map Prod.fst = l.map Prod.fst := by
  induction l with
  | nil => rfl
  | cons e t ih =>
    obtain ⟨a, b⟩ := e
    have h1 : ((if ((a : String) == k) then (k, v) else (a, b)) : String × α).1 = a := by
      by_cases hk : a = k
      · simp [hk]
      · simp [hk]
    simp only [List.map_cons, h1, ih]

theorem keys_setEntry {α : Type} (l : List (String × α)) (k : String) (v : α) :
    (setEntry l k v).map Prod.fst =
      if hasKey l k then l.map Prod.fst else l.map Prod.fst ++ [k] := by
  unfold setEntry
  by_cases h : hasKey l k
  · rw [if_pos h, if_pos h, keys_map_overwrite]
  · rw [if_neg h, if_neg h]
    simp

theorem keysNodup_setEntry {α : Type} {l : List (String × α)} {k : String} {v : α}
    (h : keysNodup l) : keysNodup (setEntry l k v) := by
  unfold keysNodup
  rw [keys_setEntry]
  by_cases hk : hasKey l k
  · rw [if_pos hk]
    exact h
  · rw [if_neg hk]
    have hmem : k ∉ l.map Prod.fst := fun hmem => hk (hasKey_iff_mem_keys.2 hmem)
    refine List.Nodup.append h (List.nodup_singleton k) ?_
    intro x hx hx'
    simp only [List.mem_singleton] at hx'
    exact hmem (hx' ▸ hx)

/-! ### Lemmas about the per-player updates -/

theorem lookup_markDead {elim : List String} {players : List (String × Player)}
    {k : String} :
    (markDead elim players).lookup k =
      (players.lookup k).map
        (fun p => if k ∈ elim then { p with alive := false } else p) := by
  induction players with
  | nil => rfl
  | cons e t ih =>
    obtain ⟨a, b⟩ := e
    by_cases hm : a ∈ elim <;> by_cases hk : k = a
    · simp [markDead, List.lookup_cons, hk, hm]
    · have hbe : (k == a) = false := beq_eq_false_iff_ne.2 hk
      simpa [markDead, List.lookup_cons, hm, hbe] using ih
    · simp [markDead, List.lookup_cons, hk, hm]
    · have hbe : (k == a) = false := beq_eq_false_iff_ne.2 hk
      simpa [markDead, List.lookup_cons, hm, hbe] using ih

theorem lookup_addScore {players : List (String × Player)} {sid : String}
    {delta : Int} {k : String} :
    (addScore players sid delta).lookup k =
      if k = sid then
        (players.lookup k).map (fun p => { p with score := p.score + delta })
      else players.lookup k := by
  induction players with
  | nil => by_cases hk : k = sid <;> simp [addScore, hk]
  | cons e t ih =>
    obtain ⟨a, b⟩ := e
    by_cases hs : a = sid <;> by_cases hk : k = a
    · simp [addScore, List.lookup_cons, hk, hs]
    · have hbe : (k == a) = false := beq_eq_false_iff_ne.2 hk
      have hks : ¬ k = sid := fun h => hk (h.trans hs.symm)
      have hbe2 : (k == sid) = false := beq_eq_false_iff_ne.2 hks
      simpa [addScore, List.lookup_cons, hs, hbe, hbe2, hks] using ih
    · have hks : ¬ k = sid := fun h => hs (hk.symm.trans h)
      simp [addScore, List.lookup_cons, hk, hs, hks]
    · have hbe : (k == a) = false := beq_eq_false_iff_ne.2 hk
      simpa [addScore, List.lookup_cons, hs, hbe] using ih

theorem map_score_addZero (o : Option Player) :
    o.map (fun p => { p with score := p.score + 0 }) = o := by
  cases o with
  | none => rfl
  | some p =>
    cases p
    simp

theorem lookup_scoreStep {room : Room} {elim : List String}
    {ps : List (String × Player)} {s : String × String} {k : String} :
    (scoreStep room elim ps s).lookup k =
      if k = s.1 then
        (ps.lookup k).map
          (fun p => { p with score := p.score + scoreDelta room elim s.1 })
      else ps.lookup k := by
  unfold scoreStep scoreDelta
  by_cases hm : s.1 ∈ elim
  · by_cases hk : k = s.1 <;> simp [hm, hk, map_score_addZero]
  · cases hts : room.submissionTimes.lookup s.1 with
    | none => by_cases hk : k = s.1 <;> simp [hm, hts, hk, map_score_addZero]
    | some ts =>
      by_cases h0 : ts = 0
      · by_cases hk : k = s.1 <;> simp [hm, hts, h0, hk, map_score_addZero]
      · by_cases hk : k = s.1 <;> simp [hm, hts, h0, hk, lookup_addScore]

theorem lookup_scoreFold {room : Room} {elim : List String}
    {subs : List (String × String)} {ps : List (String × Player)} {k : String}
    (hnd : keysNodup subs) :
    (subs.foldl (scoreStep room elim) ps).lookup k =
      if hasKey subs k then
        (ps.lookup k).map (fun p => { p with score := p.score + scoreDelta room elim k })
      else ps.lookup k := by
  induction subs generalizing ps with
  | nil => simp [hasKey]
  | cons s t ih =>
    obtain ⟨hs, hnd'⟩ := keysNodup_cons.1 hnd
    rw [List.foldl_cons, ih hnd']
    by_cases hk : k = s.1
    · subst hk
      have ht : hasKey t s.1 = false :=
        Bool.eq_false_iff.2 fun hcon => hs (hasKey_iff_mem_keys.1 hcon)
      have hh : hasKey (s :: t) s.1 = true := by
        simp [hasKey, List.any_cons]
      have hstep : (scoreStep room elim ps s).lookup s.1 =
          (ps.lookup s.1).map
            (fun p => { p with score := p.score + scoreDelta room elim s.1 }) := by
        rw [lookup_scoreStep, if_pos rfl]
      simp [ht, hh, hstep]
    · have hbe : (s.1 == k) = false := beq_eq_false_iff_ne.2 (Ne.symm hk)
      have hh : hasKey (s :: t) k = hasKey t k := by
        simp [hasKey, List.any_cons, hbe]
      have hstep : (scoreStep room elim ps s).lookup k = ps.lookup k := by
        rw [lookup_scoreStep, if_neg hk]
      rw [hh, hstep]

/-! ### Lemmas about word-set updates -/

theorem mem_addWord {used : List String} {w x : String} :
    x ∈ addWord used w ↔ x ∈ used ∨ x = w := by
  unfold addWord
  by_cases h : w ∈ used
  · simp only [if_pos h]
    constructor
    · exact Or.inl
    · rintro (hx | rfl)
      · exact hx
      · exact h
  · simp [if_neg h, List.mem_append]

theorem mem_usedWordsFold {subs : List (String × String)} {elim : List String}
    {acc : List String} {x : String} :
    x ∈ subs.foldl (fun acc s => if s.1 ∈ elim then acc else addWord acc s.2) acc ↔
      x ∈ acc ∨ ∃ s ∈ subs, s.1 ∉ elim ∧ s.2 = x := by
  induction subs generalizing acc with
  | nil => simp
  | cons s t ih =>
    by_cases hm : s.1 ∈ elim
    · rw [List.foldl_cons, if_pos hm, ih]
      constructor
      · rintro (hx | ⟨s', hs', hne, hsx⟩)
        · exact Or.inl hx
        · exact Or.inr ⟨s', List.mem_cons_of_mem _ hs', hne, hsx⟩
      · rintro (hx | ⟨s', hs', hne, hsx⟩)
        · exact Or.inl hx
        · rcases List.mem_cons.1 hs' with rfl | hs'
          · exact absurd hm hne
          · exact Or.inr ⟨s', hs', hne, hsx⟩
    · rw [List.foldl_cons, if_neg hm, ih]
      constructor
      · rintro (hx | ⟨s', hs', hne, hsx⟩)
        · rcases mem_addWord.1 hx with hx | rfl
          · exact Or.inl hx
          · exact Or.inr ⟨s, List.mem_cons_self _ _, hm, rfl⟩
        · exact Or.inr ⟨s', List.mem_cons_of_mem _ hs', hne, hsx⟩
      · rintro (hx | ⟨s', hs', hne, hsx⟩)
        · exact Or.inl (mem_addWord.2 (Or.inl hx))
        · rcases List.mem_cons.1 hs' with rfl | hs'
          · exact Or.inl (mem_addWord.2 (Or.inr hsx.symm))
          · exact Or.inr ⟨s', hs', hne, hsx⟩

theorem not_mem_deleteWord {used : List String} {w : String} (h : w ≠ "") :
    w ∉ deleteWordIfTruthy used (some w) := by
  simp [deleteWordIfTruthy, h, List.mem_filter]

/-! ### Lemmas about deletion -/

theorem mem_delEntry {α : Type} {l : List (String × α)} {k : String}
    {e : String × α} : e ∈ delEntry l k ↔ e ∈ l ∧ e.1 ≠ k := by
  simp [delEntry, List.mem_filter]

theorem hasKey_delEntry {α : Type} (l : List (String × α)) (k : String) :
    hasKey (delEntry l k) k = false := by
  refine Bool.eq_false_iff.2 fun hcon => ?_
  rcases List.mem_map.1 (hasKey_iff_mem_keys.1 hcon) with ⟨e, he, hek⟩
  exact absurd hek (mem_delEntry.1 he).2

theorem length_delEntry_add {α : Type} (l : List (String × α)) (k : String) :
    (delEntry l k).length + (l.filter (fun e => e.1 == k)).length = l.length := by
  unfold delEntry
  induction l with
  | nil => rfl
  | cons e t ih =>
    by_cases hk : e.1 = k
    · simp only [List.filter_cons, hk]
      simp only [List.filter_cons] at ih ⊢
      simp [hk] at ih ⊢
      omega
    · have hbe : (e.1 == k) = false := beq_eq_false_iff_ne.2 hk
      simp only [List.filter_cons]
      simp [hk, hbe] at ih ⊢
      omega

/-- C1, counterexample: at vote resolution of `roomC1` the end-of-game
condition holds with exactly one alive player, `A`, yet the winner handed to
`endRound` is the dead but higher-scoring `B`, not the alive survivor. -/
theorem finalizeVote_ignores_sole_survivor :
    (finalizeVote roomC1).gameOver = true ∧
      aliveIdsL (finalizeVote roomC1).room.players = ["A"] ∧
      (finalizeVote roomC1).winner = some "B" ∧
      "B" ∉ aliveIdsL (finalizeVote roomC1).room.players := by
  decide

/-- C2, counterexample: with the default ranges (levels 1..10 mapped to 10s..8s)
level 5 lasts 82/9 seconds (about 9.11s), not the 9 seconds the claim states. -/
theorem getTurnDuration_level_five_not_nine :
    getTurnDuration levelRanges 5 = 82 / 9 ∧ getTurnDuration levelRanges 5 ≠ 9 := by
  norm_num [getTurnDuration, scanRanges, levelRanges]

/-- C2 (amended): with the default ranges, the turn duration is the
piecewise-linear interpolation — a level below the first range start yields
that range's start duration, a level above the last range end yields the
last end duration, the duration decreases linearly inside each range, and in
particular level 1 yields 10s, level 10 yields 8s and level 5 yields 82/9 s
(about 9.11s, not the 9s the claim states). -/
theorem getTurnDuration_piecewise :
    (∀ level : ℚ, level < 1 → getTurnDuration levelRanges level = 10) ∧
      (∀ level : ℚ, 20 < level → getTurnDuration levelRanges level = 4) ∧
      (∀ level : ℚ, 1 ≤ level → level ≤ 10 →
        getTurnDuration levelRanges level = 10 - (level - 1) * (2 / 9)) ∧
      (∀ level : ℚ, 10 < level → level ≤ 15 →
        getTurnDuration levelRanges level = 8 - (level - 10) * (2 / 5)) ∧
      (∀ level : ℚ, 15 < level → level ≤ 20 →
        getTurnDuration levelRanges level = 6 - (level - 15) * (2 / 5)) ∧
      getTurnDuration levelRanges 1 = 10 ∧
      getTurnDuration levelRanges 10 = 8 ∧
      getTurnDuration levelRanges 5 = 82 / 9 := by
  refine ⟨?_, ?_, ?_, ?_, ?_, ?_, ?_, ?_⟩
  · intro level h
    simp [getTurnDuration, scanRanges, levelRanges, h]
  · intro level h
    have h1 : ¬ level < 1 := by linarith
    have h2 : ¬ level ≤ 10 := by linarith
    have h3 : ¬ level < 10 := by linarith
    have h4 : ¬ level ≤ 15 := by linarith
    have h5 : ¬ level < 15 := by linarith
    have h6 : ¬ level ≤ 20 := by linarith
    simp [getTurnDuration, scanRanges, levelRanges, h1, h2, h3, h4, h5, h6]
  · intro level hlo hhi
    have h1 : ¬ level < 1 := not_lt.2 hlo
    have h2 : (1 : ℚ) ≤ level := hlo
    norm_num [getTurnDuration, scanRanges, levelRanges, h1, h2, hhi]
  · intro level hlo hhi
    have h1 : ¬ level < 1 := by linarith
    have h2 : ¬ level ≤ 10 := by linarith
    have h3 : ¬ level < 10 := by linarith
    have h4 : (10 : ℚ) ≤ level := by linarith
    norm_num [getTurnDuration, scanRanges, levelRanges, h1, h2, h3, h4, hhi]
  · intro level hlo hhi
    have h1 : ¬ level < 1 := by linarith
    have h2 : ¬ level ≤ 10 := by linarith
    have h3 : ¬ level < 10 := by linarith
    have h4 : ¬ level ≤ 15 := by linarith
    have h5 : ¬ level < 15 := by linarith
    have h6 : (15 : ℚ) ≤ level := by linarith
    norm_num [getTurnDuration, scanRanges, levelRanges, h1, h2, h3, h4, h5, h6, hhi]
  · norm_num [getTurnDuration, scanRanges, levelRanges]
  · norm_num [getTurnDuration, scanRanges, levelRanges]
  · norm_num [getTurnDuration, scanRanges, levelRanges]

/-- C2, witness: the interpolation theorem applied at levels 0, 21 and 12. -/
theorem getTurnDuration_piecewise_witness :
    getTurnDuration levelRanges 0 = 10 ∧ getTurnDuration levelRanges 21 = 4 ∧
      getTurnDuration levelRanges 12 = 8 - (12 - 10) * (2 / 5) :=
  ⟨getTurnDuration_piecewise.1 0 (by norm_num),
    getTurnDuration_piecewise.2.1 21 (by norm_num),
    getTurnDuration_piecewise.2.2.2.1 12 (by norm_num) (by norm_num)⟩

/-- C3, counterexample: in `roomC3v` the target `C` holds two ballots.  The
alive-roster snapshot at turn-resolution time has five players, so the
claimed threshold `floor(4 / 2) + 1 = 3` exceeds the ballot count — yet vote
resolution disqualifies `C`, because the code recomputes the roster after the
early-exit elimination of `D`. -/
theorem finalizeVote_threshold_uses_vote_time_roster :
    roomC3v.votes.lookup "C" = some ["A", "B"] ∧
      ((aliveIds (endTurn roomC3).room).filter (fun sid => sid ≠ "C")).length / 2 + 1 =
        3 ∧
      "C" ∈ (finalizeVote roomC3v).eliminatedByVote := by
  decide

/-- C9: a submit payload that normalises to the empty string — a falsy
non-string payload, the empty string, or a whitespace-only string — makes the
handler return with the room unchanged, no submission recorded and no message
emitted at all, unlike the three rejection rules which emit the unified
error. -/
theorem handleTurnSubmit_empty_silent :
    (∀ (room : Room) (pid : String) (word : Option String) (now : Nat),
        normalizeWord word = "" → handleTurnSubmit room pid word now = (room, [])) ∧
      normalizeWord none = "" ∧ normalizeWord (some "") = "" ∧
      normalizeWord (some "   ") = "" := by
  refine ⟨?_, rfl, by decide, by decide⟩
  intro room pid word now h
  unfold handleTurnSubmit
  split
  · rfl
  · split
    · rfl
    · split
      · rfl
      · simp [h]

/-- C9, witness: the silent-return theorem applied to a concrete accepting
room, an alive player and a whitespace-only payload. -/
theorem handleTurnSubmit_empty_silent_witness :
    handleTurnSubmit
        { players := [("A", ⟨"Alice", 0, true, true⟩)], accepting := true } "A"
        (some "   ") 1234 =
      ({ players := [("A", ⟨"Alice", 0, true, true⟩)], accepting := true }, []) :=
  handleTurnSubmit_empty_silent.1 _ "A" (some "   ") 1234 (by decide)

/-- C7: while submissions are accepted, a non-empty normalised word from an
alive player is rejected exactly when it is already used, absent from a
non-empty word set, or contains a punished letter; all three rejections emit
the single unified error and leave the room unchanged; an accepted
submission never overwrites an earlier one, and `submissions` keeps at most
one entry per player. -/
theorem handleTurnSubmit_rules (room : Room) (pid : String) (p : Player)
    (w : Option String) (now : Nat)
    (hacc : room.accepting = true)
    (hp : room.players.lookup pid = some p) (halive : p.alive = true)
    (hw : normalizeWord w ≠ "") :
    (rejectedWord room (normalizeWord w) →
      handleTurnSubmit room pid w now = (room, [Msg.turnError])) ∧
    ((handleTurnSubmit room pid w now).2 = [Msg.turnError] →
      rejectedWord room (normalizeWord w)) ∧
    (¬ rejectedWord room (normalizeWord w) → room.submissions.lookup pid = none →
      (handleTurnSubmit room pid w now).1.submissions =
          setEntry room.submissions pid (normalizeWord w) ∧
        (handleTurnSubmit room pid w now).1.submissions.lookup pid =
          some (normalizeWord w) ∧
        (handleTurnSubmit room pid w now).2 =
          [Msg.turnAck (normalizeWord w),
            Msg.turnProgress (setEntry room.submissions pid (normalizeWord w)).length]) ∧
    (¬ rejectedWord room (normalizeWord w) → room.submissions.lookup pid ≠ none →
      handleTurnSubmit room pid w now = (room, [])) ∧
    (keysNodup room.submissions →
      keysNodup (handleTurnSubmit room pid w now).1.submissions) := by
  by_cases hrej : rejectedWord room (normalizeWord w)
  · have hout : handleTurnSubmit room pid w now = (room, [Msg.turnError]) := by
      unfold handleTurnSubmit
      rw [if_neg (by simp [hacc])]
      simp only [hp]
      have hrej2 : normalizeWord w ∈ room.usedWords ∨
          (0 < room.wordSet.length ∧ normalizeWord w ∉ room.wordSet) ∨
          (room.punishedLetters.any fun letter => (normalizeWord w).contains letter) = true := hrej
      rw [if_neg (by simp [halive]), if_neg hw, if_pos hrej2]
    refine ⟨fun _ => hout, fun _ => hrej, fun hn _ => absurd hrej hn,
      fun hn _ => absurd hrej hn, fun hnd => ?_⟩
    rw [hout]
    exact hnd
  · cases hsub : room.submissions.lookup pid with
    | none =>
      have hkey : ¬ hasKey room.submissions pid = true := by
        simp [lookup_eq_none_iff.1 hsub]
      have hout : handleTurnSubmit room pid w now =
          ({ room with
              submissions := setEntry room.submissions pid (normalizeWord w)
              submissionTimes := setEntry room.submissionTimes pid now },
            [Msg.turnAck (normalizeWord w),
              Msg.turnProgress (setEntry room.submissions pid (normalizeWord w)).length]) := by
        unfold handleTurnSubmit
        rw [if_neg (by simp [hacc])]
        simp only [hp]
        have hrej2 : ¬ (normalizeWord w ∈ room.usedWords ∨
          (0 < room.wordSet.length ∧ normalizeWord w ∉ room.wordSet) ∨
          (room.punishedLetters.any fun letter => (normalizeWord w).contains letter) = true) := hrej
        rw [if_neg (by simp [halive]), if_neg hw, if_neg hrej2, if_pos hkey]
      refine ⟨fun hr => absurd hr hrej, fun habs => ?_, fun _ _ => ?_,
        fun _ hne => absurd rfl hne, fun hnd => ?_⟩
      · rw [hout] at habs
        simp at habs
      · rw [hout]
        exact ⟨rfl, lookup_setEntry_self _ _ _, rfl⟩
      · rw [hout]
        exact keysNodup_setEntry hnd
    | some v =>
      have hkey : hasKey room.submissions pid = true := by
        by_contra hcon
        rw [lookup_eq_none_iff.2 (by simpa using hcon)] at hsub
        exact Option.noConfusion hsub
      have hout : handleTurnSubmit room pid w now = (room, []) := by
        unfold handleTurnSubmit
        rw [if_neg (by simp [hacc])]
        simp only [hp]
        have hrej2 : ¬ (normalizeWord w ∈ room.usedWords ∨
          (0 < room.wordSet.length ∧ normalizeWord w ∉ room.wordSet) ∨
          (room.punishedLetters.any fun letter => (normalizeWord w).contains letter) = true) := hrej
        rw [if_neg (by simp [halive]), if_neg hw, if_neg hrej2, if_neg (by simp [hkey])]
      refine ⟨fun hr => absurd hr hrej, fun habs => ?_,
        fun _ hn => Option.noConfusion hn, fun _ _ => hout, fun hnd => ?_⟩
      · rw [hout] at habs
        simp at habs
      · rw [hout]
        exact hnd

/-- C7, witness: the submission-rule theorem applied to `roomC7` and the
already-used word `zebre`, which is rejected with the unified error. -/
theorem handleTurnSubmit_rules_witness :
    handleTurnSubmit roomC7 "A" (some "zebre") 7 = (roomC7, [Msg.turnError]) :=
  (handleTurnSubmit_rules roomC7 "A" ⟨"Alice", 0, true, true⟩ (some "zebre") 7 rfl
      (by decide) rfl (by decide)).1 (by unfold rejectedWord; decide)

/-- C4: a cast ballot is checked immediately — when the new ballot makes the
target's count reach the majority threshold (computed from the alive roster
excluding the target), the handler itself marks the target not-alive and
removes the target's submitted word from `usedWords`, while the voting phase
is still open (no vote-timeout involved). -/
theorem handleTurnVote_early_exit (room : Room) (voterId targetId : String)
    (voter targetPlayer : Player) (w : String)
    (hvoting : room.votingActive = true)
    (hvt : room.players.lookup voterId = some voter) (hva : voter.alive = true)
    (htg : room.players.lookup targetId = some targetPlayer)
    (hta : targetPlayer.alive = true)
    (hne : targetId ≠ voterId)
    (hsub : room.submissions.lookup targetId = some w) (hw : w ≠ "")
    (hnotvoted : voterId ∉ votersFor room targetId)
    (hthreshold :
      ((aliveIds room).filter (fun sid => sid ≠ targetId)).length / 2 + 1 ≤
        (votersFor room targetId).length + 1) :
    aliveAt (handleTurnVote room voterId targetId).players targetId = false ∧
      w ∉ (handleTurnVote room voterId targetId).usedWords ∧
      votersFor (handleTurnVote room voterId targetId) targetId =
        votersFor room targetId ++ [voterId] ∧
      (handleTurnVote room voterId targetId).votingActive = true := by
  have hkeysub : hasKey room.submissions targetId = true := by
    by_contra hcon
    rw [lookup_eq_none_iff.2 (by simpa using hcon)] at hsub
    exact Option.noConfusion hsub
  have hvset : ((if ¬ hasKey room.votes targetId then setEntry room.votes targetId []
      else room.votes).lookup targetId).getD [] = votersFor room targetId := by
    by_cases hk : hasKey room.votes targetId
    · rw [if_neg (by simp [hk])]
      rfl
    · rw [if_pos (by simp [hk])]
      rw [lookup_setEntry_self]
      unfold votersFor
      rw [lookup_eq_none_iff.2 (by simpa using hk)]
      rfl
  have hout : handleTurnVote room voterId targetId =
      { room with
        votes := setEntry
          (if ¬ hasKey room.votes targetId then setEntry room.votes targetId []
            else room.votes) targetId (votersFor room targetId ++ [voterId])
        players := markDead [targetId] room.players
        usedWords :=
          deleteWordIfTruthy room.usedWords (room.submissions.lookup targetId) } := by
    unfold handleTurnVote
    rw [if_neg (by simp [hvoting])]
    simp only [hvt, htg]
    rw [if_neg (by simp [hva]), if_neg (by simp [hta]), if_neg hne,
      if_neg (by simp [hkeysub])]
    simp only [hvset]
    rw [if_neg hnotvoted]
    rw [if_pos (by simpa using hthreshold)]
  rw [hout]
  refine ⟨?_, ?_, ?_, hvoting⟩
  · simp [aliveAt, lookup_markDead, htg]
  · rw [hsub]
    exact not_mem_deleteWord hw
  · unfold votersFor
    simp only [lookup_setEntry_self]
    rfl

/-- C4, witness: in `roomC4` the majority among the two players other than
`C` is `floor(2/2)+1 = 2`; the second ballot, cast by `B`, immediately
eliminates `C` and frees the word `mot`. -/
theorem handleTurnVote_early_exit_witness :
    aliveAt (handleTurnVote roomC4 "B" "C").players "C" = false ∧
      "mot" ∉ (handleTurnVote roomC4 "B" "C").usedWords ∧
      votersFor (handleTurnVote roomC4 "B" "C") "C" = ["A", "B"] ∧
      (handleTurnVote roomC4 "B" "C").votingActive = true :=
  handleTurnVote_early_exit roomC4 "B" "C" ⟨"B", 0, true, true⟩
    ⟨"C", 0, true, true⟩ "mot" rfl (by decide) (by decide) (by decide) (by decide)
    (by decide) (by decide) (by decide) (by decide) (by decide)

/-- C5: at turn resolution a player is eliminated exactly when it is an alive
player without a submission or a submitter of a word submitted at least
twice; eliminated players end up not-alive; and the words added to
`usedWords` are exactly those of non-eliminated submitters. -/
theorem endTurn_eliminations (room : Room)
    (hndP : keysNodup room.players) (hndS : keysNodup room.submissions) :
    (∀ sid : String,
        sid ∈ (endTurn room).eliminated ↔
          ((∃ p, room.players.lookup sid = some p ∧ p.alive = true) ∧
              room.submissions.lookup sid = none) ∨
            ∃ w, room.submissions.lookup sid = some w ∧
              2 ≤ (room.submissions.filter (fun t => t.2 == w)).length) ∧
    (∀ sid ∈ (endTurn room).eliminated, ∀ p,
        (endTurn room).room.players.lookup sid = some p → p.alive = false) ∧
    (∀ x : String,
        x ∈ (endTurn room).room.usedWords ↔
          x ∈ room.usedWords ∨
            ∃ sid, room.submissions.lookup sid = some x ∧
              sid ∉ (endTurn room).eliminated) := by
  have helim : (endTurn room).eliminated = noSubmissionIds room ++ duplicateIds room :=
    rfl
  refine ⟨?_, ?_, ?_⟩
  · intro sid
    rw [helim, List.mem_append]
    constructor
    · rintro (h | h)
      · left
        rcases (mem_map_fst_filter_iff hndP).1 h with ⟨p, hp, hq⟩
        simp only [noSubmissionIds] at hq ⊢
        simp only [Bool.and_eq_true, decide_eq_true_eq, Bool.not_eq_true] at hq
        exact ⟨⟨p, hp, hq.1⟩, lookup_eq_none_iff.2 (by simpa using hq.2)⟩
      · right
        rcases (mem_map_fst_filter_iff hndS).1 h with ⟨w, hw, hq⟩
        simp only [decide_eq_true_eq] at hq
        exact ⟨w, hw, hq⟩
    · rintro (⟨⟨p, hp, hal⟩, hnone⟩ | ⟨w, hw, hcnt⟩)
      · left
        refine (mem_map_fst_filter_iff hndP).2 ⟨p, hp, ?_⟩
        simp [hal, lookup_eq_none_iff.1 hnone]
      · right
        refine (mem_map_fst_filter_iff hndS).2 ⟨w, hw, ?_⟩
        simp [hcnt]
  · intro sid hmem p hp
    rw [helim] at hmem
    by_cases htr :
        (truthyNat room.turnStartedAt && truthyNat room.currentTurnDuration) = true
    · have hpl : (endTurn room).room.players =
          room.submissions.foldl
            (scoreStep room (noSubmissionIds room ++ duplicateIds room))
            (markDead (noSubmissionIds room ++ duplicateIds room) room.players) := by
        simp [endTurn, htr]
      rw [hpl, lookup_scoreFold hndS, lookup_markDead] at hp
      by_cases hk : hasKey room.submissions sid
      · rw [if_pos hk] at hp
        rcases Option.map_eq_some'.1 hp with ⟨q1, hq1, hq2⟩
        rcases Option.map_eq_some'.1 hq1 with ⟨q0, hq0, hq3⟩
        rw [← hq2, ← hq3, if_pos hmem]
      · rw [if_neg hk] at hp
        rcases Option.map_eq_some'.1 hp with ⟨q0, hq0, hq3⟩
        rw [← hq3, if_pos hmem]
    · have hpl : (endTurn room).room.players =
          markDead (noSubmissionIds room ++ duplicateIds room) room.players := by
        simp [endTurn, htr]
      rw [hpl, lookup_markDead] at hp
      rcases Option.map_eq_some'.1 hp with ⟨q0, hq0, hq3⟩
      rw [← hq3, if_pos hmem]
  · intro x
    have hused : (endTurn room).room.usedWords =
        room.submissions.foldl
          (fun acc s =>
            if s.1 ∈ noSubmissionIds room ++ duplicateIds room then acc
            else addWord acc s.2)
          room.usedWords := rfl
    rw [hused, mem_usedWordsFold, helim]
    constructor
    · rintro (hx | ⟨s, hs, hne, rfl⟩)
      · exact Or.inl hx
      · exact Or.inr ⟨s.1, lookup_eq_some_of_mem hndS hs, hne⟩
    · rintro (hx | ⟨sid, hsid, hne⟩)
      · exact Or.inl hx
      · exact Or.inr ⟨(sid, x), mem_of_lookup_eq_some hsid, hne, rfl⟩

/-- C5, witness: the elimination characterisation applied to the duplicate
scenario `roomC5` at the duplicate submitter `A`. -/
theorem endTurn_eliminations_witness :
    "A" ∈ (endTurn roomC5).eliminated ↔
      ((∃ p, roomC5.players.lookup "A" = some p ∧ p.alive = true) ∧
          roomC5.submissions.lookup "A" = none) ∨
        ∃ w, roomC5.submissions.lookup "A" = some w ∧
          2 ≤ (roomC5.submissions.filter (fun t => t.2 == w)).length :=
  (endTurn_eliminations roomC5 (by unfold keysNodup; decide)
    (by unfold keysNodup; decide)).1 "A"

/-- C6: for a non-eliminated submitter the score added at turn resolution is
`speedScore (submission instant - turn start) duration`; that quantity equals
`clamp(10 - floor(elapsed_fraction * 10), 1, 10)`, always lies in `[1, 10]`,
and is monotonically non-increasing in the elapsed time. -/
theorem endTurn_speed_score (room : Room) (sid : String) (ts st d : Nat)
    (hndS : keysNodup room.submissions)
    (hsub : hasKey room.submissions sid = true)
    (helim : sid ∉ (endTurn room).eliminated)
    (hts : room.submissionTimes.lookup sid = some ts) (hts0 : ts ≠ 0)
    (hst : room.turnStartedAt = some st) (hst0 : st ≠ 0)
    (hd : room.currentTurnDuration = some d) (hd0 : d ≠ 0) :
    ((endTurn room).room.players.lookup sid =
        (room.players.lookup sid).map
          (fun p =>
            { p with score := p.score + speedScore ((ts : Int) - (st : Int)) d })) ∧
      (∀ (elapsed : Int) (dur : Nat), 0 < dur →
        speedScore elapsed dur =
          max 1 (min 10 (10 - ⌊((elapsed : ℚ) / (dur : ℚ)) * 10⌋))) ∧
      (∀ (elapsed : Int) (dur : Nat),
        1 ≤ speedScore elapsed dur ∧ speedScore elapsed dur ≤ 10) ∧
      (∀ (e₁ e₂ : Int) (dur : Nat), e₁ ≤ e₂ →
        speedScore e₂ dur ≤ speedScore e₁ dur) := by
  refine ⟨?_, ?_, ?_, ?_⟩
  · have helim' : sid ∉ noSubmissionIds room ++ duplicateIds room := helim
    have htr :
        (truthyNat room.turnStartedAt && truthyNat room.currentTurnDuration) = true := by
      simp [truthyNat, hst, hd, hst0, hd0]
    have hpl : (endTurn room).room.players =
        room.submissions.foldl
          (scoreStep room (noSubmissionIds room ++ duplicateIds room))
          (markDead (noSubmissionIds room ++ duplicateIds room) room.players) := by
      simp [endTurn, htr]
    rw [hpl, lookup_scoreFold hndS, if_pos hsub, lookup_markDead]
    simp only [scoreDelta, helim', hts, hst, hd, Option.map_map]
    simp [hts0, Function.comp]
    rfl
  · intro elapsed dur hdur
    simp only [speedScore, max_def, min_def]
    split_ifs <;> omega
  · intro elapsed dur
    simp only [speedScore]
    split_ifs <;> omega
  · intro e₁ e₂ dur h
    have hfloor : ⌊((e₁ : ℚ) / (dur : ℚ)) * 10⌋ ≤ ⌊((e₂ : ℚ) / (dur : ℚ)) * 10⌋ := by
      rcases Nat.eq_zero_or_pos dur with hz | hpos
      · simp [hz]
      · apply Int.floor_le_floor
        have hdq : (0 : ℚ) < (dur : ℚ) := by exact_mod_cast hpos
        have h1 : ((e₁ : ℚ)) ≤ (e₂ : ℚ) := by exact_mod_cast h
        have h2 : (e₁ : ℚ) / dur ≤ (e₂ : ℚ) / dur := by
          exact (div_le_div_iff_of_pos_right hdq).2 h1
        exact mul_le_mul_of_nonneg_right h2 (by norm_num)
    simp only [speedScore]
    split_ifs <;> omega

/-- C6, witness: the speed-score theorem applied to the surviving submitter
`C` of `roomC5`, who submitted 2000ms into a 10000ms turn. -/
theorem endTurn_speed_score_witness :
    (endTurn roomC5).room.players.lookup "C" =
      (roomC5.players.lookup "C").map
        (fun p =>
          { p with score := p.score + speedScore ((3000 : Int) - (1000 : Int)) 10000 }) :=
  (endTurn_speed_score roomC5 "C" 3000 1000 10000 (by unfold keysNodup; decide)
    (by decide) (by decide) (by decide) (by decide) rfl (by decide) rfl (by decide)).1

/-- C3 (amended): at vote resolution a recorded target is disqualified
exactly when it is still alive and its ballot count meets or exceeds
`floor(n/2)+1`, where `n` counts the alive players other than the target in
the roster as it stands at vote-resolution time (after any early-exit
disqualifications), not in the turn-resolution snapshot. -/
theorem finalizeVote_majority_threshold (room : Room)
    (hndV : keysNodup room.votes) (hvoting : room.votingActive = true)
    (t : String) (voters : List String) (hmem : (t, voters) ∈ room.votes) :
    t ∈ (finalizeVote room).eliminatedByVote ↔
      aliveAt room.players t = true ∧
        ((aliveIds room).filter (fun sid => sid ≠ t)).length / 2 + 1 ≤
          voters.length := by
  have helim : (finalizeVote room).eliminatedByVote = voteEliminated room := by
    unfold finalizeVote
    rw [if_neg (by simp [hvoting])]
    by_cases hend : 20 ≤ room.level ∨
        (aliveIdsL (markDead (voteEliminated room) room.players)).length ≤ 1
    · rw [if_pos hend]
    · rw [if_neg hend]
  rw [helim]
  unfold voteEliminated
  rw [mem_map_fst_filter_iff hndV]
  have hlk : room.votes.lookup t = some voters := lookup_eq_some_of_mem hndV hmem
  constructor
  · rintro ⟨vs, hvs, hq⟩
    rw [hlk] at hvs
    injection hvs with hvs
    subst hvs
    simpa using hq
  · intro h
    exact ⟨voters, hlk, by simpa using h⟩

/-- The winner fold of `finalizeVote` is `List.argmax` over the score. -/
theorem bestScoreId_eq_argmax (players : List (String × Player)) :
    bestScoreId players = (players.argmax (fun e => e.2.score)).map Prod.fst := by
  have h : ∀ (o : Option (String × Player)),
      players.foldl
        (fun best e =>
          match best with
          | none => some e
          | some b => if b.2.score < e.2.score then some e else some b) o =
      players.foldl (List.argAux fun b c => c.2.score < b.2.score) o := by
    induction players with
    | nil => intro o; rfl
    | cons a l ih =>
      intro o
      rw [List.foldl_cons, List.foldl_cons, ih]
      congr 1
      cases o with
      | none => rfl
      | some b => rfl
  unfold bestScoreId List.argmax
  rw [h]

/-- `List.indexOf` only depends on the boolean equality function. -/
theorem indexOf_congr_beq {α : Type} {i1 i2 : BEq α}
    (h : ∀ x y : α, @BEq.beq _ i1 x y = @BEq.beq _ i2 x y) (a : α) (l : List α) :
    @List.indexOf _ i1 a l = @List.indexOf _ i2 a l := by
  unfold List.indexOf
  congr 1
  funext x
  exact h x a

/-- The two boolean equalities on roster entries agree, so the index used by
`List.argmax` is the default one. -/
theorem indexOf_decEq_eq (l : List (String × Player)) (a : String × Player) :
    @List.indexOf _ instBEqOfDecidableEq a l = l.indexOf a := by
  refine indexOf_congr_beq (fun x y => ?_) a l
  by_cases h : x = y
  · subst h
    simp [instBEqOfDecidableEq]
  · have h2 : (x == y) = false := beq_eq_false_iff_ne.2 h
    simp [instBEqOfDecidableEq, h, h2]

/-- C1 (amended): whenever vote resolution fires the game-over branch, the
winner it hands to the round-end step is the first roster entry attaining
the maximum score — every roster entry scores no higher, and any entry with
an equal score sits no earlier in enumeration order.  The lone alive
survivor receives no special treatment. -/
theorem finalizeVote_winner_is_first_max_score (room : Room)
    (hover : (finalizeVote room).gameOver = true) :
    ∀ bid : String, (finalizeVote room).winner = some bid →
      ∃ e ∈ (finalizeVote room).room.players,
        e.1 = bid ∧
          (∀ a ∈ (finalizeVote room).room.players, a.2.score ≤ e.2.score) ∧
          ∀ a ∈ (finalizeVote room).room.players,
            e.2.score ≤ a.2.score →
              (finalizeVote room).room.players.indexOf e ≤
                (finalizeVote room).room.players.indexOf a := by
  intro bid hbid
  by_cases hv : room.votingActive = true
  · unfold finalizeVote at hbid hover ⊢
    rw [if_neg (by simp [hv])] at hbid hover ⊢
    by_cases hend : 20 ≤ room.level ∨
        (aliveIdsL (markDead (voteEliminated room) room.players)).length ≤ 1
    · rw [if_pos hend] at hbid ⊢
      simp only at hbid ⊢
      rw [bestScoreId_eq_argmax] at hbid
      rcases Option.map_eq_some'.1 hbid with ⟨e, he, rfl⟩
      rcases List.argmax_eq_some_iff.1 he with ⟨hmem, hmax, hidx⟩
      refine ⟨e, hmem, rfl, hmax, fun a ha hsc => ?_⟩
      have := hidx a ha hsc
      rwa [indexOf_decEq_eq, indexOf_decEq_eq] at this
    · rw [if_neg hend] at hover
      exact absurd hover (by simp)
  · unfold finalizeVote at hover
    rw [if_pos (by simp [hv])] at hover
    exact absurd hover (by simp)

/-- C3, witness: the threshold characterisation applied to `roomC3v` at the
target `C`, whose two recorded ballots are measured against the
vote-resolution-time roster. -/
theorem finalizeVote_majority_threshold_witness :
    "C" ∈ (finalizeVote roomC3v).eliminatedByVote ↔
      aliveAt roomC3v.players "C" = true ∧
        ((aliveIds roomC3v).filter (fun sid => sid ≠ "C")).length / 2 + 1 ≤
          (["A", "B"] : List String).length :=
  finalizeVote_majority_threshold roomC3v (by unfold keysNodup; decide) (by decide)
    "C" ["A", "B"] (by decide)

/-- C1, witness: the winner characterisation applied to `roomC1`, whose
game-over branch crowns `B`. -/
theorem finalizeVote_winner_is_first_max_score_witness :
    ∃ e ∈ (finalizeVote roomC1).room.players,
      e.1 = "B" ∧
        (∀ a ∈ (finalizeVote roomC1).room.players, a.2.score ≤ e.2.score) ∧
        ∀ a ∈ (finalizeVote roomC1).room.players,
          e.2.score ≤ a.2.score →
            (finalizeVote roomC1).room.players.indexOf e ≤
              (finalizeVote roomC1).room.players.indexOf a :=
  finalizeVote_winner_is_first_max_score roomC1 (by decide) "B" (by decide)

/-- After `addBot` a bot id is always recorded. -/
theorem addBot_botId_isSome (room : Room) (now : Nat) :
    ((addBot room now).botId).isSome = true := by
  unfold addBot
  cases h : room.botId <;> simp [h]

/-- `addBot` does not touch the active flag. -/
theorem addBot_gameActive (room : Room) (now : Nat) :
    (addBot room now).gameActive = room.gameActive := by
  unfold addBot
  cases h : room.botId <;> simp [h]

/-- C8: for the host on an inactive room, start-game injects a bot whenever
fewer than two humans are online; if fewer than two players are online even
after injection the action is rejected with the generic lobby error and the
room stays inactive; otherwise it starts with level 0 and no punished
letters.  Restart behaves identically, and the already-active failure emits
the same generic error. -/
theorem handleGameStart_checks (room : Room) (senderId : String) (now : Nat)
    (hhost : room.hostId = some senderId) (hinactive : room.gameActive = false) :
    (humanOnlineCount room < 2 →
      ((handleGameStart room senderId now).1.botId).isSome = true) ∧
    (onlineCount (if humanOnlineCount room < 2 then addBot room now else room) < 2 →
      handleGameStart room senderId now =
        (if humanOnlineCount room < 2 then addBot room now else room,
          StartOutcome.error lobbyErrorMessage) ∧
      (handleGameStart room senderId now).1.gameActive = false) ∧
    (2 ≤ onlineCount (if humanOnlineCount room < 2 then addBot room now else room) →
      (handleGameStart room senderId now).2 = StartOutcome.started ∧
      (handleGameStart room senderId now).1.gameActive = true ∧
      (handleGameStart room senderId now).1.level = 0 ∧
      (handleGameStart room senderId now).1.punishedLetters = []) ∧
    handleGameRestart room senderId now = handleGameStart room senderId now ∧
    (∀ (r : Room) (sid : String) (n : Nat), r.hostId = some sid →
      r.gameActive = true →
      handleGameStart r sid n = (r, StartOutcome.error lobbyErrorMessage)) := by
  have hne : ¬ room.hostId ≠ some senderId := by simp [hhost]
  have hactive : ∀ (r : Room) (sid : String) (n : Nat), r.hostId = some sid →
      r.gameActive = true →
      handleGameStart r sid n = (r, StartOutcome.error lobbyErrorMessage) := by
    intro r sid n hh ha
    unfold handleGameStart
    rw [if_neg (by simp [hh]), if_pos ha]
  by_cases honline :
      onlineCount (if humanOnlineCount room < 2 then addBot room now else room) < 2
  · have hout : handleGameStart room senderId now =
        (if humanOnlineCount room < 2 then addBot room now else room,
          StartOutcome.error lobbyErrorMessage) := by
      unfold handleGameStart
      rw [if_neg hne, if_neg (by simp [hinactive]), if_pos honline]
    refine ⟨?_, fun _ => ⟨hout, ?_⟩, fun h2 => absurd honline (not_lt.2 h2), rfl,
      hactive⟩
    · intro hh
      rw [hout]
      simp only [if_pos hh]
      exact addBot_botId_isSome room now
    · rw [hout]
      by_cases hh : humanOnlineCount room < 2
      · simp only [if_pos hh]
        rw [addBot_gameActive]
        exact hinactive
      · simp only [if_neg hh]
        exact hinactive
  · have hout : handleGameStart room senderId now =
        ({ (if humanOnlineCount room < 2 then addBot room now else room) with
            gameActive := true, level := 0, punishedLetters := [] },
          StartOutcome.started) := by
      unfold handleGameStart
      rw [if_neg hne, if_neg (by simp [hinactive]), if_neg honline]
    refine ⟨?_, fun hcon => absurd hcon honline, fun _ => ?_, rfl, hactive⟩
    · intro hh
      rw [hout]
      simp only [if_pos hh]
      exact addBot_botId_isSome room now
    · rw [hout]
      exact ⟨rfl, rfl, rfl, rfl⟩

/-- C10: a room holds at most one bot — the single-bot roster shape is
preserved by `addBot` (which is a no-op when a bot is already present) and by
`removeBot`, which clears `botId` and deletes exactly the one bot entry,
leaving every other roster entry in place. -/
theorem bot_roster_invariant (room : Room) (now : Nat)
    (hfresh : hasKey room.players ("bot-" ++ toString now) = false)
    (hinv : botInvariant room) :
    botInvariant (addBot room now) ∧
      (∀ b, room.botId = some b → addBot room now = room) ∧
      (removeBot room).botId = none ∧
      botInvariant (removeBot room) ∧
      ∀ b, room.botId = some b →
        hasKey (removeBot room).players b = false ∧
          (removeBot room).players.length + 1 = room.players.length ∧
          ∀ e ∈ room.players, e.1 ≠ b → e ∈ (removeBot room).players := by
  have hrem : (removeBot room).botId = none := by
    unfold removeBot
    cases h : room.botId <;> simp [h]
  refine ⟨?_, ?_, hrem, Or.inl hrem, ?_⟩
  · cases h : room.botId with
    | some b =>
      have : addBot room now = room := by
        unfold addBot
        rw [h]
      rw [this]
      exact hinv
    | none =>
      right
      refine ⟨"bot-" ++ toString now, ?_, ?_⟩
      · unfold addBot
        rw [h]
      · unfold addBot
        rw [h]
        simp only
        unfold setEntry
        rw [if_neg (by simp [hfresh])]
        rw [List.filter_append]
        have hempty : room.players.filter
            (fun e => e.1 == "bot-" ++ toString now) = [] := by
          rw [List.filter_eq_nil_iff]
          intro e he
          have := hasKey_iff_mem_keys (l := room.players)
            (k := "bot-" ++ toString now)
          simp only [hfresh] at this
          intro hcon
          have hmem : ("bot-" ++ toString now) ∈ room.players.map Prod.fst :=
            List.mem_map.2 ⟨e, he, beq_iff_eq.1 hcon⟩
          have := this.2 hmem
          simp at this
        rw [hempty]
        simp
  · intro b hb
    unfold addBot
    rw [hb]
  · intro b hb
    have hcount : (room.players.filter (fun e => e.1 == b)).length = 1 := by
      rcases hinv with hnone | ⟨b', hb', hcnt⟩
      · rw [hnone] at hb
        exact Option.noConfusion hb
      · rw [hb] at hb'
        injection hb' with hb'
        subst hb'
        exact hcnt
    have hplayers : (removeBot room).players = delEntry room.players b := by
      unfold removeBot
      rw [hb]
    refine ⟨?_, ?_, ?_⟩
    · rw [hplayers]
      exact hasKey_delEntry room.players b
    · rw [hplayers]
      have := length_delEntry_add room.players b
      omega
    · intro e he hne
      rw [hplayers]
      exact mem_delEntry.2 ⟨he, hne⟩

/-- C8, witness: with the lone host of `roomC8`, start-game injects a bot and
then starts the game with level 0 and no punished letters. -/
theorem handleGameStart_checks_witness :
    (handleGameStart roomC8 "A" 99).2 = StartOutcome.started ∧
      (handleGameStart roomC8 "A" 99).1.gameActive = true ∧
      (handleGameStart roomC8 "A" 99).1.level = 0 ∧
      (handleGameStart roomC8 "A" 99).1.punishedLetters = [] :=
  (handleGameStart_checks roomC8 "A" 99 rfl rfl).2.2.1 (by decide)

/-- C10, witness: on `roomC10`, which already holds a bot, `addBot` changes
nothing and `removeBot` deletes exactly the bot entry. -/
theorem bot_roster_invariant_witness :
    addBot roomC10 7 = roomC10 ∧
      hasKey (removeBot roomC10).players "bot-1" = false ∧
      (removeBot roomC10).players.length + 1 = roomC10.players.length :=
  ⟨(bot_roster_invariant roomC10 7 (by decide)
      (Or.inr ⟨"bot-1", rfl, by decide⟩)).2.1 "bot-1" rfl,
    ((bot_roster_invariant roomC10 7 (by decide)
        (Or.inr ⟨"bot-1", rfl, by decide⟩)).2.2.2.2 "bot-1" rfl).1,
    ((bot_roster_invariant roomC10 7 (by decide)
        (Or.inr ⟨"bot-1", rfl, by decide⟩)).2.2.2.2 "bot-1" rfl).2.1⟩

end Chips
